import Mathlib

/-!
Verification of the algorithmic and data-handling content of the
`javascript-interview` repository: the "Container With Most Water"
two-pointer algorithm (`maxArea`, `maxAreaBruteForce`, `maxAreaAlternative`
from `src/SQL/second-highest-salary.sql`, second document), the
second-highest-salary SQL query (Solution 1 of the same file), and the
NaN comparison semantics demonstrated in
`src/data-types/exact-comparison.js`.

Heights are modelled as natural numbers (the spec restricts attention to
non-negative integer sequences); a JavaScript array of heights becomes a
`List Nat` and `height[i]` becomes `List.getD height i 0` (all accesses in
the source stay in bounds, so the default is never observed).
-/

/-- The area of the container formed by lines `i` and `j` (with `i ≤ j`):
`(j - i) * Math.min(height[i], height[j])` as computed throughout the
source file. -/
def area (height : List Nat) (i j : Nat) : Nat :=
  (j - i) * min (height.getD i 0) (height.getD j 0)

/-- The body of the `while (left < right)` loop of the JavaScript
function `maxArea`.  The extra `fuel` argument makes the recursion
structural; `maxArea` passes `right - left` for it, and since every
iteration moves exactly one pointer one step towards the other, the gap
and the fuel decrease in lockstep, so the fuel is exact, never an
approximation (see `maxAreaLoop_eq_wf`). -/
def maxAreaLoop (height : List Nat) : Nat → Nat → Nat → Nat → Nat
  | left, right, acc, fuel + 1 =>
    if left < right then
      let width := right - left
      let containerHeight := min (height.getD left 0) (height.getD right 0)
      let a := width * containerHeight
      if height.getD left 0 < height.getD right 0 then
        maxAreaLoop height (left + 1) right (max acc a) fuel
      else
        maxAreaLoop height left (right - 1) (max acc a) fuel
    else acc
  | _, _, acc, 0 => acc

/-- The two-pointer function `maxArea` (lines 188–211 of the source):
`left = 0`, `right = height.length - 1`, loop while `left < right`
accumulating the maximal area, moving the pointer with the smaller
height (ties move the right pointer). -/
def maxArea (height : List Nat) : Nat :=
  maxAreaLoop height 0 (height.length - 1) 0 (height.length - 1)

/-- The same loop written by well-founded recursion on the gap
`right - left`, with no fuel: Lean accepts it precisely because each
iteration strictly decreases the gap, which is the termination argument
of claim C4. -/
def maxAreaLoopWF (height : List Nat) (left right acc : Nat) : Nat :=
  if hlr : left < right then
    let a := (right - left) * min (height.getD left 0) (height.getD right 0)
    if height.getD left 0 < height.getD right 0 then
      maxAreaLoopWF height (left + 1) right (max acc a)
    else
      maxAreaLoopWF height left (right - 1) (max acc a)
  else acc
termination_by right - left
decreasing_by all_goals omega

/-- The brute-force reference `maxAreaBruteForce` (lines 163–178):
for `i` from `0` to `n - 1`, for `j` from `i + 1` to `n - 1`, take the
maximum of `(j - i) * min(height[i], height[j])`, starting from `0`. -/
def maxAreaBruteForce (height : List Nat) : Nat :=
  (List.range height.length).foldl
    (fun acc i =>
      (List.range' (i + 1) (height.length - (i + 1))).foldl
        (fun acc2 j =>
          max acc2 ((j - i) * min (height.getD i 0) (height.getD j 0)))
        acc)
    0

/-- The loop of the for-loop variant `maxAreaAlternative` (lines
369–379): `for (let i = 0, j = height.length - 1; i < j;)` with body
`area = (j - i) * Math.min(height[i], height[j]); maxArea = Math.max(...);
height[i] < height[j] ? i++ : j--`.  Same fuel discipline as
`maxAreaLoop`. -/
def maxAreaAltLoop (height : List Nat) : Nat → Nat → Nat → Nat → Nat
  | i, j, acc, fuel + 1 =>
    if i < j then
      let a := (j - i) * min (height.getD i 0) (height.getD j 0)
      if height.getD i 0 < height.getD j 0 then
        maxAreaAltLoop height (i + 1) j (max acc a) fuel
      else
        maxAreaAltLoop height i (j - 1) (max acc a) fuel
    else acc
  | _, _, acc, 0 => acc

/-- The for-loop variant `maxAreaAlternative` of the source. -/
def maxAreaAlternative (height : List Nat) : Nat :=
  maxAreaAltLoop height 0 (height.length - 1) 0 (height.length - 1)

/-- The maximum of `area height i j` over all pairs `l ≤ i < j ≤ r`
(zero when there is no such pair).  This is the quantity the two-pointer
loop still has to account for when its pointers stand at `l` and `r`. -/
def bestIn (height : List Nat) (l r : Nat) : Nat :=
  (Finset.Icc l r).sup fun i => (Finset.Ioc i r).sup fun j => area height i j

/-- One iteration of `maxArea`'s loop body as a state transformer on
`(left, right, maxArea)` (lines 195–207 of the source): compute the
candidate area `(right - left) * min(height[left], height[right])`,
update the running maximum, and advance `left` when
`height[left] < height[right]`, otherwise advance `right`. -/
def codeStep (height : List Nat) (s : Nat × Nat × Nat) : Nat × Nat × Nat :=
  let left := s.1
  let right := s.2.1
  let m := max s.2.2 ((right - left) * min (height.getD left 0) (height.getD right 0))
  if height.getD left 0 < height.getD right 0 then (left + 1, right, m)
  else (left, right - 1, m)

/-- One iteration of the algorithm as section 4 of the spec describes
it, written from the spec's words for comparison with `codeStep`:
the candidate area width × min(heights) updates the running maximum,
and exactly the index with the strictly smaller height advances; on a
tie either pointer may advance. -/
def describedStep (height : List Nat) (s t : Nat × Nat × Nat) : Prop :=
  t.2.2 = max s.2.2 ((s.2.1 - s.1) * min (height.getD s.1 0) (height.getD s.2.1 0)) ∧
  ((height.getD s.1 0 < height.getD s.2.1 0 ∧ t.1 = s.1 + 1 ∧ t.2.1 = s.2.1) ∨
   (height.getD s.2.1 0 < height.getD s.1 0 ∧ t.1 = s.1 ∧ t.2.1 = s.2.1 - 1) ∨
   (height.getD s.1 0 = height.getD s.2.1 0 ∧
     ((t.1 = s.1 + 1 ∧ t.2.1 = s.2.1) ∨ (t.1 = s.1 ∧ t.2.1 = s.2.1 - 1))))

/-- State-passing version of the two-pointer loop, threading the height
array through every iteration so that writes to it would be observable:
each iteration only reads `height[left]` and `height[right]` and passes
the array on unchanged, exactly as the JavaScript loop body contains no
assignment to `height`.  Returns the result with the final array. -/
def maxAreaLoopSt (height : List Nat) : Nat → Nat → Nat → Nat → Nat × List Nat
  | left, right, acc, fuel + 1 =>
    if left < right then
      let a := (right - left) * min (height.getD left 0) (height.getD right 0)
      if height.getD left 0 < height.getD right 0 then
        maxAreaLoopSt height (left + 1) right (max acc a) fuel
      else
        maxAreaLoopSt height left (right - 1) (max acc a) fuel
    else (acc, height)
  | _, _, acc, 0 => (acc, height)

/-- `maxArea` with the height array threaded through the computation and
returned, for the frame property (claim C10). -/
def maxAreaSt (height : List Nat) : Nat × List Nat :=
  maxAreaLoopSt height 0 (height.length - 1) 0 (height.length - 1)

/-- The list `SELECT DISTINCT salary FROM Employee ORDER BY salary DESC`
produces: the distinct salary values sorted in descending order.  The
`Employee` table is modelled by its list of salary values (one entry per
row; the `id` column plays no role in the query). -/
def distinctSalariesDesc (salaries : List Int) : List Int :=
  List.insertionSort (· ≥ ·) salaries.dedup

/-- Solution 1 of `src/SQL/second-highest-salary.sql` (lines 13–18):
`SELECT DISTINCT salary FROM Employee ORDER BY salary DESC LIMIT 1
OFFSET 1`, as a scalar subquery: `OFFSET 1` drops the first row of the
sorted distinct salaries, `LIMIT 1` takes the next one, and an empty
result makes the subquery return NULL (`none`). -/
def secondHighestSalary (salaries : List Int) : Option Int :=
  ((distinctSalariesDesc salaries).drop 1).head?

/-- The value `v` is the second-largest distinct salary of `l`: it
occurs in `l`, some strictly larger salary occurs in `l`, and every
salary strictly above `v` is the maximum (so no distinct value lies
between `v` and the top). -/
def IsSecondLargestDistinct (l : List Int) (v : Int) : Prop :=
  v ∈ l ∧ (∃ m ∈ l, v < m) ∧ ∀ w ∈ l, v < w → ∀ u ∈ l, u ≤ w

/-- Model of the JavaScript number values exercised by
`src/data-types/exact-comparison.js`: NaN, negative zero, and ordinary
integer values (`int 0` is positive zero).  NaN's comparison behaviour
under `==`, `===` and `Object.is` is fixed by the ECMAScript abstract
operations Number::equal and SameValue independently of any floating
point arithmetic, so this discrete model captures it faithfully. -/
inductive JSNum where
  | nan : JSNum
  | negZero : JSNum
  | int : Int → JSNum
deriving DecidableEq

/-- Strict equality `===` on two numbers (ECMAScript Number::equal):
false whenever either operand is NaN; `+0 === -0` is true; otherwise
numeric equality. -/
def jsStrictEq : JSNum → JSNum → Bool
  | .nan, _ => false
  | _, .nan => false
  | .negZero, .negZero => true
  | .negZero, .int v => v == 0
  | .int v, .negZero => v == 0
  | .int a, .int b => a == b

/-- Loose equality `==` between two values that are already numbers
performs no coercion and coincides with `===` (ECMAScript
IsLooselyEqual step 1 defers to IsStrictlyEqual when the types match). -/
def jsLooseEq (a b : JSNum) : Bool := jsStrictEq a b

/-- The ECMAScript SameValue operation behind `Object.is`: NaN equals
NaN, and `+0` is distinguished from `-0`. -/
def jsObjectIs : JSNum → JSNum → Bool
  | .nan, .nan => true
  | .nan, _ => false
  | _, .nan => false
  | .negZero, .negZero => true
  | .negZero, .int _ => false
  | .int _, .negZero => false
  | .int a, .int b => a == b

example : maxArea [1, 8, 6, 2, 5, 4, 8, 3, 7] = 49 := by decide
example : maxAreaBruteForce [1, 8, 6, 2, 5, 4, 8, 3, 7] = 49 := by decide
example : bestIn [1, 8, 6, 2, 5, 4, 8, 3, 7] 0 8 = 49 := by decide
example : maxAreaAlternative [1, 2, 4, 3] = 4 := by decide
example : secondHighestSalary [300, 200, 100] = some 200 := by decide
example : secondHighestSalary [300, 300] = none := by decide
example : secondHighestSalary [300, 300, 200, 200] = some 200 := by decide
example : secondHighestSalary [300] = none := by decide
example : secondHighestSalary [300, 300, 300] = none := by decide

theorem foldl_max_range' (f : Nat → Nat) :
    ∀ (k s acc : Nat),
      (List.range' s k).foldl (fun a j => max a (f j)) acc
        = max acc ((Finset.Ico s (s + k)).sup f) := by
  intro k
  induction k with
  | zero => intro s acc; simp
  | succ k ih =>
    intro s acc
    rw [List.range'_succ]
    simp only [List.foldl_cons]
    rw [ih (s + 1) (max acc (f s))]
    have hins : Finset.Ico s (s + (k + 1)) = insert s (Finset.Ico (s + 1) (s + 1 + k)) := by
      ext x
      simp only [Finset.mem_Ico, Finset.mem_insert]
      omega
    rw [hins, Finset.sup_insert]
    show max (max acc (f s)) ((Finset.Ico (s + 1) (s + 1 + k)).sup f)
      = max acc (max (f s) ((Finset.Ico (s + 1) (s + 1 + k)).sup f))
    omega

theorem area_le_bestIn (height : List Nat) {l r i j : Nat}
    (hli : l ≤ i) (hij : i < j) (hjr : j ≤ r) :
    area height i j ≤ bestIn height l r := by
  unfold bestIn
  have h1 : area height i j ≤ (Finset.Ioc i r).sup fun j => area height i j :=
    Finset.le_sup (Finset.mem_Ioc.mpr ⟨hij, hjr⟩)
  have h2 : ((Finset.Ioc i r).sup fun j => area height i j)
      ≤ (Finset.Icc l r).sup fun i => (Finset.Ioc i r).sup fun j => area height i j :=
    Finset.le_sup (f := fun i => (Finset.Ioc i r).sup fun j => area height i j)
      (Finset.mem_Icc.mpr ⟨hli, le_trans (le_of_lt hij) hjr⟩)
  exact le_trans h1 h2

theorem bestIn_mono (height : List Nat) {l l' r r' : Nat}
    (hl : l ≤ l') (hr : r' ≤ r) : bestIn height l' r' ≤ bestIn height l r := by
  apply Finset.sup_le
  intro i hi
  apply Finset.sup_le
  intro j hj
  simp only [Finset.mem_Icc] at hi
  simp only [Finset.mem_Ioc] at hj
  exact area_le_bestIn height (le_trans hl hi.1) hj.1 (le_trans hj.2 hr)

theorem bestIn_of_ge (height : List Nat) {l r : Nat} (hrl : r ≤ l) :
    bestIn height l r = 0 := by
  apply Nat.le_antisymm _ (Nat.zero_le _)
  apply Finset.sup_le
  intro i hi
  apply Finset.sup_le
  intro j hj
  simp only [Finset.mem_Icc] at hi
  simp only [Finset.mem_Ioc] at hj
  omega

theorem area_left_le (height : List Nat) {l r j : Nat} (hj : l < j) (hjr : j ≤ r)
    (hle : height.getD l 0 ≤ height.getD r 0) :
    area height l j ≤ area height l r := by
  unfold area
  rw [Nat.min_eq_left hle]
  exact Nat.mul_le_mul (by omega) (Nat.min_le_left _ _)

theorem area_right_le (height : List Nat) {l r i : Nat} (hi : l ≤ i) (hir : i < r)
    (hle : height.getD r 0 ≤ height.getD l 0) :
    area height i r ≤ area height l r := by
  unfold area
  rw [Nat.min_eq_right hle]
  exact Nat.mul_le_mul (by omega) (Nat.min_le_right _ _)

theorem bestIn_peel_left (height : List Nat) {l r : Nat} (hlr : l < r)
    (hle : height.getD l 0 ≤ height.getD r 0) :
    bestIn height l r = max (area height l r) (bestIn height (l + 1) r) := by
  apply Nat.le_antisymm
  · apply Finset.sup_le
    intro i hi
    apply Finset.sup_le
    intro j hj
    simp only [Finset.mem_Icc] at hi
    simp only [Finset.mem_Ioc] at hj
    by_cases hil : i = l
    · subst hil
      exact le_max_of_le_left (area_left_le height hj.1 hj.2 hle)
    · exact le_max_of_le_right (area_le_bestIn height (by omega) hj.1 hj.2)
  · apply max_le
    · exact area_le_bestIn height (le_refl l) hlr (le_refl r)
    · exact bestIn_mono height (by omega) (le_refl r)

theorem bestIn_peel_right (height : List Nat) {l r : Nat} (hlr : l < r)
    (hle : height.getD r 0 ≤ height.getD l 0) :
    bestIn height l r = max (area height l r) (bestIn height l (r - 1)) := by
  apply Nat.le_antisymm
  · apply Finset.sup_le
    intro i hi
    apply Finset.sup_le
    intro j hj
    simp only [Finset.mem_Icc] at hi
    simp only [Finset.mem_Ioc] at hj
    by_cases hjr : j = r
    · subst hjr
      exact le_max_of_le_left (area_right_le height hi.1 hj.1 hle)
    · exact le_max_of_le_right (area_le_bestIn height hi.1 hj.1 (by omega))
  · apply max_le
    · exact area_le_bestIn height (le_refl l) hlr (le_refl r)
    · exact bestIn_mono height (le_refl l) (by omega)

theorem maxAreaLoop_eq_bestIn (height : List Nat) :
    ∀ fuel left right acc, right - left ≤ fuel →
      maxAreaLoop height left right acc fuel = max acc (bestIn height left right) := by
  intro fuel
  induction fuel with
  | zero =>
    intro l r acc hf
    rw [bestIn_of_ge height (by omega)]
    have hz : maxAreaLoop height l r acc 0 = acc := rfl
    omega
  | succ fuel ih =>
    intro l r acc hf
    by_cases hlr : l < r
    · simp only [maxAreaLoop, if_pos hlr]
      have harea : area height l r
          = (r - l) * min (height.getD l 0) (height.getD r 0) := rfl
      by_cases hc : height.getD l 0 < height.getD r 0
      · rw [if_pos hc, ih (l + 1) r _ (by omega),
          bestIn_peel_left height hlr (le_of_lt hc), harea]
        omega
      · rw [if_neg hc, ih l (r - 1) _ (by omega),
          bestIn_peel_right height hlr (by omega), harea]
        omega
    · simp only [maxAreaLoop, if_neg hlr]
      rw [bestIn_of_ge height (by omega)]
      omega

theorem maxAreaBruteForce_eq_bestIn (height : List Nat) (hn : 1 ≤ height.length) :
    maxAreaBruteForce height = bestIn height 0 (height.length - 1) := by
  unfold maxAreaBruteForce
  rw [List.range_eq_range']
  simp only [foldl_max_range']
  rw [Nat.zero_max]
  unfold bestIn
  apply Finset.sup_congr
  · ext x
    simp only [Finset.mem_Ico, Finset.mem_Icc]
    omega
  · intro i hi
    simp only [Finset.mem_Icc] at hi
    apply Finset.sup_congr
    · ext x
      simp only [Finset.mem_Ico, Finset.mem_Ioc]
      omega
    · intro j hj
      rfl

theorem maxAreaLoopWF_eq_bestIn (height : List Nat) :
    ∀ gap left right acc, right - left ≤ gap →
      maxAreaLoopWF height left right acc = max acc (bestIn height left right) := by
  intro gap
  induction gap with
  | zero =>
    intro l r acc hf
    rw [maxAreaLoopWF, dif_neg (by omega : ¬ l < r), bestIn_of_ge height (by omega)]
    omega
  | succ gap ih =>
    intro l r acc hf
    by_cases hlr : l < r
    · rw [maxAreaLoopWF, dif_pos hlr]
      have harea : area height l r
          = (r - l) * min (height.getD l 0) (height.getD r 0) := rfl
      by_cases hc : height.getD l 0 < height.getD r 0
      · simp only [if_pos hc]
        rw [ih (l + 1) r _ (by omega), bestIn_peel_left height hlr (le_of_lt hc), harea]
        omega
      · simp only [if_neg hc]
        rw [ih l (r - 1) _ (by omega), bestIn_peel_right height hlr (by omega), harea]
        omega
    · rw [maxAreaLoopWF, dif_neg hlr, bestIn_of_ge height (by omega)]
      omega

theorem maxAreaAltLoop_eq_loop (height : List Nat) :
    ∀ fuel i j acc, maxAreaAltLoop height i j acc fuel = maxAreaLoop height i j acc fuel := by
  intro fuel
  induction fuel with
  | zero => intro i j acc; rfl
  | succ fuel ih =>
    intro i j acc
    simp only [maxAreaAltLoop, maxAreaLoop]
    by_cases hij : i < j
    · simp only [if_pos hij]
      by_cases hc : height.getD i 0 < height.getD j 0
      · simp only [if_pos hc]
        exact ih (i + 1) j _
      · simp only [if_neg hc]
        exact ih i (j - 1) _
    · simp only [if_neg hij]

theorem maxAreaLoopSt_eq (height : List Nat) :
    ∀ fuel left right acc,
      maxAreaLoopSt height left right acc fuel
        = (maxAreaLoop height left right acc fuel, height) := by
  intro fuel
  induction fuel with
  | zero => intro l r acc; rfl
  | succ fuel ih =>
    intro l r acc
    simp only [maxAreaLoopSt, maxAreaLoop]
    by_cases hlr : l < r
    · simp only [if_pos hlr]
      by_cases hc : height.getD l 0 < height.getD r 0
      · simp only [if_pos hc]
        exact ih (l + 1) r _
      · simp only [if_neg hc]
        exact ih l (r - 1) _
    · simp only [if_neg hlr]

/-- C1: for every sequence of non-negative integer heights of length at
least 2, the two-pointer function `maxArea` returns the same value as
the brute-force function `maxAreaBruteForce`, i.e. the maximum over all
index pairs `i < j` of `(j - i) * min(height[i], height[j])`. -/
theorem maxArea_eq_maxAreaBruteForce (height : List Nat)
    (hlen : 2 ≤ height.length) :
    maxArea height = maxAreaBruteForce height := by
  rw [maxArea,
    maxAreaLoop_eq_bestIn height (height.length - 1) 0 (height.length - 1) 0 (by omega),
    maxAreaBruteForce_eq_bestIn height (by omega), Nat.zero_max]

/-- Witness for C1: the two functions agree on the nine-element example
input, which satisfies the length hypothesis. -/
theorem maxArea_eq_maxAreaBruteForce_witness :
    2 ≤ ([1, 8, 6, 2, 5, 4, 8, 3, 7] : List Nat).length ∧
      maxArea [1, 8, 6, 2, 5, 4, 8, 3, 7] = maxAreaBruteForce [1, 8, 6, 2, 5, 4, 8, 3, 7] :=
  ⟨by decide, maxArea_eq_maxAreaBruteForce [1, 8, 6, 2, 5, 4, 8, 3, 7] (by decide)⟩

/-- C2: `maxArea` returns 49 on `[1,8,6,2,5,4,8,3,7]`, 1 on `[1,1]`,
and 15 on the all-equal input `[5,5,5,5]`. -/
theorem maxArea_examples :
    maxArea [1, 8, 6, 2, 5, 4, 8, 3, 7] = 49 ∧ maxArea [1, 1] = 1 ∧
      maxArea [5, 5, 5, 5] = 15 := by
  decide

/-- C3: the greedy pointer-movement rule is sound: for indices
`l < r' < r` with `height[l] ≤ height[r]`, the pair `(l, r')` has area
at most that of the pair `(l, r)`, so moving the larger-height index
can never produce a larger area than the current pair. -/
theorem greedy_pointer_rule_sound (height : List Nat) (l r rp : Nat)
    (hlrp : l < rp) (hrpr : rp < r)
    (hle : height.getD l 0 ≤ height.getD r 0) :
    area height l rp ≤ area height l r :=
  area_left_le height hlrp (le_of_lt hrpr) hle

/-- Witness for C3: on `[5, 3, 5]` with `l = 0 < r' = 1 < r = 2` the
inner pair's area (1) is at most the outer pair's area (10). -/
theorem greedy_pointer_rule_sound_witness :
    (0 : Nat) < 1 ∧ (1 : Nat) < 2 ∧
      ([5, 3, 5] : List Nat).getD 0 0 ≤ ([5, 3, 5] : List Nat).getD 2 0 ∧
      area [5, 3, 5] 0 1 ≤ area [5, 3, 5] 0 2 :=
  ⟨by decide, by decide, by decide,
    greedy_pointer_rule_sound [5, 3, 5] 0 2 1 (by decide) (by decide) (by decide)⟩

/-- C4: the two-pointer loop terminates on every input: `maxArea`
(embedded with exact fuel `right - left`, decremented once per
iteration) coincides with `maxAreaLoopWF`, the same loop accepted by
well-founded recursion because each iteration advances exactly one
pointer and strictly decreases the gap `right - left`; moreover the
`codeStep` of one iteration strictly decreases the gap.  The embedded
function is total. -/
theorem maxArea_terminating (height : List Nat) :
    maxArea height = maxAreaLoopWF height 0 (height.length - 1) 0 ∧
    ∀ left right acc, left < right →
      (codeStep height (left, right, acc)).2.1 - (codeStep height (left, right, acc)).1
        < right - left := by
  constructor
  · rw [maxArea,
      maxAreaLoop_eq_bestIn height (height.length - 1) 0 (height.length - 1) 0 (by omega),
      maxAreaLoopWF_eq_bestIn height (height.length - 1) 0 (height.length - 1) 0 (by omega)]
  · intro l r acc hlr
    simp only [codeStep]
    by_cases hc : height.getD l 0 < height.getD r 0
    · simp only [if_pos hc]
      show r - (l + 1) < r - l
      omega
    · simp only [if_neg hc]
      show (r - 1) - l < r - l
      omega

/-- Witness for C4: on `[2, 7]` the fuel-based and the well-founded
loops agree, and one iteration from `(0, 1, 0)` strictly shrinks the
gap. -/
theorem maxArea_terminating_witness :
    maxArea [2, 7] = maxAreaLoopWF [2, 7] 0 (([2, 7] : List Nat).length - 1) 0 ∧
      (codeStep [2, 7] (0, 1, 0)).2.1 - (codeStep [2, 7] (0, 1, 0)).1 < 1 - 0 :=
  ⟨(maxArea_terminating [2, 7]).1, (maxArea_terminating [2, 7]).2 0 1 0 (by decide)⟩

/-- C5: `maxArea` follows exactly the described algorithm: the indices
start at the two ends with running maximum 0; one loop iteration is
exactly `codeStep` (compute `(right - left) * min(height[left],
height[right])`, fold it into the running maximum, advance the pointer
with the smaller height); and `codeStep` satisfies the spec's
description `describedStep` (the strictly smaller-height index
advances; on ties one of the two pointers advances). -/
theorem maxArea_follows_described_algorithm (height : List Nat) :
    maxArea height = maxAreaLoop height 0 (height.length - 1) 0 (height.length - 1) ∧
    (∀ left right acc fuel, left < right →
      maxAreaLoop height left right acc (fuel + 1) =
        maxAreaLoop height (codeStep height (left, right, acc)).1
          (codeStep height (left, right, acc)).2.1
          (codeStep height (left, right, acc)).2.2 fuel) ∧
    (∀ left right acc,
      describedStep height (left, right, acc) (codeStep height (left, right, acc))) := by
  refine ⟨rfl, ?_, ?_⟩
  · intro l r acc fuel hlr
    simp only [maxAreaLoop, codeStep, if_pos hlr]
    by_cases hc : height.getD l 0 < height.getD r 0
    · simp only [if_pos hc]
    · simp only [if_neg hc]
  · intro l r acc
    simp only [describedStep, codeStep]
    by_cases hc : height.getD l 0 < height.getD r 0
    · simp only [if_pos hc]
      exact ⟨trivial, Or.inl ⟨hc, trivial, trivial⟩⟩
    · simp only [if_neg hc]
      rcases Nat.lt_or_ge (height.getD r 0) (height.getD l 0) with h' | h'
      · exact ⟨trivial, Or.inr (Or.inl ⟨h', trivial, trivial⟩)⟩
      · have heq : height.getD l 0 = height.getD r 0 := by omega
        exact ⟨trivial, Or.inr (Or.inr ⟨heq, Or.inr ⟨trivial, trivial⟩⟩)⟩

/-- Witness for C5: one iteration of the loop on `[3, 5]` from state
`(0, 1, 0)` is exactly `codeStep`, and that step satisfies the spec's
description. -/
theorem maxArea_follows_described_algorithm_witness :
    maxAreaLoop [3, 5] 0 1 0 (0 + 1) =
      maxAreaLoop [3, 5] (codeStep [3, 5] (0, 1, 0)).1 (codeStep [3, 5] (0, 1, 0)).2.1
        (codeStep [3, 5] (0, 1, 0)).2.2 0 ∧
      describedStep [3, 5] (0, 1, 0) (codeStep [3, 5] (0, 1, 0)) :=
  ⟨(maxArea_follows_described_algorithm [3, 5]).2.1 0 1 0 0 (by decide),
    (maxArea_follows_described_algorithm [3, 5]).2.2 0 1 0⟩

/-- C8: for every input array of heights, the for-loop variant
`maxAreaAlternative` returns the same value as the while-loop variant
`maxArea`. -/
theorem maxAreaAlternative_eq_maxArea (height : List Nat) :
    maxAreaAlternative height = maxArea height := by
  rw [maxAreaAlternative, maxArea, maxAreaAltLoop_eq_loop]

/-- C9: for every input array of length 0 or 1 the loop guard fails on
entry and `maxArea` returns its initial accumulator 0. -/
theorem maxArea_of_short (height : List Nat) (hlen : height.length ≤ 1) :
    maxArea height = 0 := by
  rw [maxArea]
  have h0 : height.length - 1 = 0 := by omega
  rw [h0]
  rfl

/-- Witness for C9: the empty array has length at most 1 and `maxArea`
returns 0 on it. -/
theorem maxArea_of_short_witness :
    ([] : List Nat).length ≤ 1 ∧ maxArea [] = 0 :=
  ⟨by decide, maxArea_of_short [] (by decide)⟩

/-- C10: `maxArea` never writes to its argument: threading the height
array through every loop iteration (`maxAreaSt`) returns the array
unchanged, elementwise equal to the input, while computing the same
result as `maxArea`. -/
theorem maxArea_frame (height : List Nat) :
    (maxAreaSt height).2 = height ∧
    (∀ i, ((maxAreaSt height).2).getD i 0 = height.getD i 0) ∧
    (maxAreaSt height).1 = maxArea height := by
  have h := maxAreaLoopSt_eq height (height.length - 1) 0 (height.length - 1) 0
  rw [maxAreaSt, h]
  exact ⟨rfl, fun i => rfl, rfl⟩

theorem distinctSalariesDesc_perm (salaries : List Int) :
    List.Perm (distinctSalariesDesc salaries) salaries.dedup :=
  List.perm_insertionSort _ _

theorem distinctSalariesDesc_sorted (salaries : List Int) :
    List.Sorted (· ≥ ·) (distinctSalariesDesc salaries) :=
  List.sorted_insertionSort _ _

/-- C6: the DISTINCT-based second-highest-salary query (`SELECT DISTINCT
salary FROM Employee ORDER BY salary DESC LIMIT 1 OFFSET 1`), embedded
over the table's list of salaries, returns the second-largest distinct
salary value when the table has at least two distinct salary values,
and returns NULL exactly when it has fewer than two. -/
theorem secondHighestSalary_spec (salaries : List Int) :
    (2 ≤ salaries.toFinset.card →
      ∃ v, secondHighestSalary salaries = some v ∧ IsSecondLargestDistinct salaries v) ∧
    (secondHighestSalary salaries = none ↔ salaries.toFinset.card < 2) := by
  have hp := distinctSalariesDesc_perm salaries
  have hlen : (distinctSalariesDesc salaries).length = salaries.dedup.length :=
    hp.length_eq
  have hsort := distinctSalariesDesc_sorted salaries
  have hnd : (distinctSalariesDesc salaries).Nodup :=
    hp.nodup_iff.mpr (List.nodup_dedup _)
  have hmem : ∀ x : Int, x ∈ distinctSalariesDesc salaries ↔ x ∈ salaries := fun x => by
    rw [hp.mem_iff, List.mem_dedup]
  have hcard : salaries.toFinset.card = salaries.dedup.length :=
    List.card_toFinset salaries
  constructor
  · intro h2
    rw [hcard] at h2
    obtain ⟨a, b, t, hd⟩ : ∃ a b t, distinctSalariesDesc salaries = a :: b :: t := by
      rcases hds : distinctSalariesDesc salaries with _ | ⟨a, _ | ⟨b, t⟩⟩
      · rw [hds] at hlen
        simp only [List.length_nil] at hlen
        omega
      · rw [hds] at hlen
        simp only [List.length_cons, List.length_nil] at hlen
        omega
      · exact ⟨a, b, t, rfl⟩
    rw [hd] at hsort hnd
    obtain ⟨ha, hsort'⟩ := List.sorted_cons.mp hsort
    obtain ⟨hb, _⟩ := List.sorted_cons.mp hsort'
    have hab : b ≤ a := ha b (List.mem_cons_self b t)
    have hanb : a ≠ b := by
      intro h
      exact (List.nodup_cons.mp hnd).1 (h ▸ List.mem_cons_self b t)
    refine ⟨b, ?_, ?_, ⟨a, ?_, lt_of_le_of_ne hab (Ne.symm hanb)⟩, ?_⟩
    · rw [secondHighestSalary, hd]
      rfl
    · exact (hmem b).mp (by rw [hd]; exact List.mem_cons_of_mem a (List.mem_cons_self b t))
    · exact (hmem a).mp (by rw [hd]; exact List.mem_cons_self a _)
    · intro w hw hbw u hu
      have hwd : w ∈ a :: b :: t := by
        rw [← hd]
        exact (hmem w).mpr hw
      have hud : u ∈ a :: b :: t := by
        rw [← hd]
        exact (hmem u).mpr hu
      have hwa : w = a := by
        rcases List.mem_cons.mp hwd with h | h
        · exact h
        · rcases List.mem_cons.mp h with h' | h'
          · omega
          · have := hb w h'
            omega
      subst hwa
      rcases List.mem_cons.mp hud with h | h
      · omega
      · exact ha u h
  · rw [secondHighestSalary, List.head?_eq_none_iff, List.drop_eq_nil_iff, hlen, hcard]
    omega

/-- Witness for C6: on the three-row table of test case 1 the query
returns 200, the second-largest distinct salary; the two-row all-equal
table of test case 2 has fewer than two distinct salaries and the query
returns NULL. -/
theorem secondHighestSalary_spec_witness :
    (∃ v, secondHighestSalary [300, 200, 100] = some v ∧
        IsSecondLargestDistinct [300, 200, 100] v) ∧
      (secondHighestSalary [300, 300] = none ↔ ([300, 300] : List Int).toFinset.card < 2) :=
  ⟨(secondHighestSalary_spec [300, 200, 100]).1 (by decide),
    (secondHighestSalary_spec [300, 300]).2⟩

/-- C7: in the model of ECMAScript number comparison, `NaN == NaN` and
`NaN === NaN` evaluate to false while `Object.is(NaN, NaN)` evaluates
to true, as the annotations in `exact-comparison.js` state. -/
theorem nan_comparison_pitfall :
    jsLooseEq JSNum.nan JSNum.nan = false ∧
      jsStrictEq JSNum.nan JSNum.nan = false ∧
      jsObjectIs JSNum.nan JSNum.nan = true := by
  decide
